import Mathlib

/-!
Verification development for the assessment-scoring subsystem of
`coursebuilder/controllers/assessments.py`.

The profile's score mapping and the answers record are modelled as
association lists keyed by strings.  Scores are integers (the HTTP layer
rounds the submitted raw score to an integer before `store_score` runs, and
every value the subsystem itself stores is an integer, so the defensive
`int(...)` casts in the source are the identity here).

The overall-score formula `int((0.3 * mid) + (0.7 * post))` is evaluated by
the source in IEEE-754 double precision.  It is embedded exactly: the
literals `0.3` and `0.7` denote the nearest doubles, whose values times
`2 ^ 54` are the integers `c3num` and `c7num`; each multiplication and the
addition rounds its exact result to the nearest double (ties to even), and
`int` truncates toward zero.  All intermediate values here are integer
multiples of `2 ^ (-54)`, so they are represented by their numerators over
`2 ^ 54`.  The model is exact for `|mid|, |post| < 2 ^ 53`, where the
int-to-float conversions in the source are lossless.
-/

/-- Binary length of a natural number, computed with structural fuel so that
it reduces in the kernel; `bitlen n` equals `Nat.size n`. -/
def bitlenAux : Nat → Nat → Nat
  | 0, _ => 0
  | fuel + 1, n => if n = 0 then 0 else bitlenAux fuel (n / 2) + 1

/-- Number of binary digits of `n`. -/
def bitlen (n : Nat) : Nat :=
  bitlenAux n n

/-- Round `n` to the nearest multiple of `2 ^ s`, ties going to the even
multiple: the rounding step of IEEE-754 round-to-nearest-even. -/
def roundTies (s n : Nat) : Nat :=
  let q := n / 2 ^ s
  let r := n % 2 ^ s
  if 2 * r < 2 ^ s then q * 2 ^ s
  else if 2 * r > 2 ^ s then (q + 1) * 2 ^ s
  else if q % 2 = 0 then q * 2 ^ s else (q + 1) * 2 ^ s

/-- Round the nonnegative value `n / 2 ^ 54` to the nearest IEEE-754 double
(53 significant bits), returned as its numerator over `2 ^ 54`. -/
def flN (n : Nat) : Nat :=
  if bitlen n ≤ 53 then n else roundTies (bitlen n - 53) n

/-- Round the value `z / 2 ^ 54` to the nearest double; IEEE rounding is
symmetric under negation. -/
def flZ (z : Int) : Int :=
  if 0 ≤ z then (flN z.toNat : Int) else -(flN (-z).toNat : Int)

/-- Truncation toward zero of `z / 2 ^ 54`: Python's `int()` applied to a
float whose value is `z / 2 ^ 54`. -/
def itrunc54 (z : Int) : Int :=
  if 0 ≤ z then (z.toNat / 2 ^ 54 : Nat) else -((-z).toNat / 2 ^ 54 : Nat)

/-- Numerator over `2 ^ 54` of the double nearest to 0.3. -/
def c3num : Int := 5404319552844595

/-- Numerator over `2 ^ 54` of the double nearest to 0.7. -/
def c7num : Int := 12610078956637388

/-- Exact value of the source expression
`int((0.3 * midcourse_score) + (0.7 * postcourse_score))` under IEEE-754
double-precision evaluation. -/
def overall_float (mid post : Int) : Int :=
  itrunc54 (flZ (flZ (c3num * mid) + flZ (c7num * post)))

/-- Association-list lookup: the first binding of key `k`. -/
def alist_get {β : Type} : List (String × β) → String → Option β
  | [], _ => none
  | p :: rest, k => if p.1 = k then some p.2 else alist_get rest k

/-- Association-list update: replace the first binding of key `k`, or append
one when the key is absent. -/
def alist_set {β : Type} : List (String × β) → String → β → List (String × β)
  | [], k, v => [(k, v)]
  | p :: rest, k, v => if p.1 = k then (k, v) :: rest else p :: alist_set rest k v

/-- Mapping from assessment-type name to best integer score, one per learner. -/
abbrev ScoreMap := List (String × Int)

/-- Mapping from assessment-type name to the most recently submitted answer
payload, one per learner. -/
abbrev AnswerMap (α : Type) := List (String × α)

/-- Modelled from the spec: `models/utils.py` (not under `src/`) provides
`get_score`, the read half of the §4.1 ScoreStore key-value mapping. -/
def get_score (scores : ScoreMap) (assessment_type : String) : Option Int :=
  alist_get scores assessment_type

/-- Modelled from the spec: `models/utils.py` (not under `src/`) provides
`set_score`, the write half of the §4.1 ScoreStore key-value mapping. -/
def set_score (scores : ScoreMap) (assessment_type : String) (score : Int) : ScoreMap :=
  alist_set scores assessment_type score

/-- Modelled from the spec: `models/utils.py` (not under `src/`) provides
`set_answer`, which overwrites the answers record's entry for a type. -/
def set_answer {α : Type} (answers : AnswerMap α) (assessment_type : String) (new_answers : α) :
    AnswerMap α :=
  alist_set answers assessment_type new_answers

/-- Translation of `store_score` from
`src/coursebuilder/controllers/assessments.py`: apply the keep-the-maximum
update rule for `assessment_type`, and on a final ("Fin") submission derive
and store the overall score and return the pass/fail result. -/
def store_score (scores : ScoreMap) (assessment_type : String) (score : Int) :
    ScoreMap × Option String :=
  let existing_score := get_score scores assessment_type
  let scores :=
    match existing_score with
    | none => set_score scores assessment_type score
    | some e => if score > e then set_score scores assessment_type score else scores
  if assessment_type = "Fin" then
    let midcourse_score := (get_score scores "Mid").getD 0
    let postcourse_score :=
      match existing_score with
      | none => score
      | some e => if score > e then score else e
    let overall_score := overall_float midcourse_score postcourse_score
    let result := if overall_score ≥ 70 then "pass" else "fail"
    (set_score scores "overall_score" overall_score, some result)
  else
    (scores, none)

/-- Audit record written by `models.EventEntity.record` in the source: the
source tag, the JSON payload fields, and the handler origin tag. -/
structure SubmissionEvent (α : Type) where
  source : String
  assessmentType : String
  values : α
  location : String
deriving DecidableEq

/-- Modelled from the spec: the two record stores and the audit log.  The
`Student` and `StudentAnswersEntity` datastore kinds live in
`models/models.py`, which is not under `src/`; per §3 both are keyed by the
learner identifier. -/
structure Store (α : Type) where
  students : List (String × ScoreMap)
  answers : List (String × AnswerMap α)
  events : List (SubmissionEvent α)
deriving DecidableEq

/-- Modelled from the spec: §7's error taxonomy for a submission. -/
inductive SubmitError where
  | notFound
  | conflict
deriving DecidableEq

/-- Translation of `AnswerHandler.update_assessment_transaction`: load the
learner (failing when unknown), lazily create the answers record, overwrite
the submitted type's answers, run `store_score`, persist both records and
append the audit event.  The datastore reads and writes of the source are
the association-list operations here. -/
def update_assessment_transaction {α : Type} (st : Store α)
    (learner_id assessment_type : String) (new_answers : α) (score : Int) :
    Except SubmitError (Store α × Option String) :=
  match alist_get st.students learner_id with
  | none => .error .notFound
  | some scores =>
    let answers := (alist_get st.answers learner_id).getD []
    let answers := set_answer answers assessment_type new_answers
    let res := store_score scores assessment_type score
    .ok
      ({ students := alist_set st.students learner_id res.1,
         answers := alist_set st.answers learner_id answers,
         events := st.events ++
           [⟨"submit-assessment", "assessment-" ++ assessment_type, new_answers,
             "AnswerHandler"⟩] },
       res.2)

/-- Modelled from the spec: §5's all-or-nothing semantics of the
`db.transactional(xg=True)` decorator (App Engine layer, not under `src/`).
`crashAt = some n` means the attempt aborts after `n` internal steps,
before commit; any abort or error leaves the store untouched. -/
def runSubmission {α : Type} (st : Store α)
    (learner_id assessment_type : String) (new_answers : α) (score : Int)
    (crashAt : Option Nat) : Store α × Except SubmitError (Option String) :=
  match crashAt with
  | some _ => (st, .error .conflict)
  | none =>
    match update_assessment_transaction st learner_id assessment_type new_answers score with
    | .error e => (st, .error e)
    | .ok (st', r) => (st', .ok r)

/-- Score stored for learner `lid` under type `t`. -/
def scoreOf {α : Type} (st : Store α) (lid t : String) : Option Int :=
  get_score ((alist_get st.students lid).getD []) t

/-- Answer payload stored for learner `lid` under type `t`. -/
def answerOf {α : Type} (st : Store α) (lid t : String) : Option α :=
  alist_get ((alist_get st.answers lid).getD []) t

/-- Fold a sequence of submissions for one learner and one assessment type
through the transaction, keeping the prior state when an attempt fails. -/
def submitSeq {α : Type} (st : Store α) (lid t : String) : List (α × Int) → Store α
  | [] => st
  | p :: rest =>
    match update_assessment_transaction st lid t p.1 p.2 with
    | .error _ => submitSeq st lid t rest
    | .ok (st', _) => submitSeq st' lid t rest

/-- Value stored for a type by the source's update rule: the candidate when
no score exists, otherwise the larger of existing and candidate (the
comparison `score > int(existing_score)`). -/
def updateVal (existing : Option Int) (score : Int) : Int :=
  match existing with
  | none => score
  | some e => if score > e then score else e

/-- Overall score as the spec states it: `floor(0.3 * mid + 0.7 * postCourse)`
in exact arithmetic.  Stated from the spec's words, to be compared with the
source's double-precision `overall_float`. -/
def overall_exact (mid post : Int) : Int :=
  ⌊(3 * mid + 7 * post : ℚ) / 10⌋

/-- Relation between a stored overall score and the stored "Mid" and "Fin"
scores that every state reachable by submissions maintains: the overall entry
never exceeds the formula applied to the current mid and final scores. -/
def OverallInv (m : ScoreMap) : Prop :=
  ∀ v, get_score m "overall_score" = some v →
    ∃ f, get_score m "Fin" = some f ∧
      v ≤ overall_float ((get_score m "Mid").getD 0) f

/-- Every stored score is nonnegative. -/
def NonnegScores (m : ScoreMap) : Prop :=
  ∀ k v, get_score m k = some v → 0 ≤ v

/-- Fold a sequence of `(assessment_type, score)` submissions through
`store_score` on one learner's score mapping. -/
def scoreFold (m : ScoreMap) : List (String × Int) → ScoreMap
  | [] => m
  | p :: rest => scoreFold (store_score m p.1 p.2).1 rest

/-- Steps of one `AnswerHandler.post` request, in source order: the body of
`update_assessment_transaction` (the datastore reads, the two writes of the
records, and the `EventEntity.record` call), the commit performed by the
`db.transactional` decorator when that method returns, and the
progress-tracker notification issued by `post` afterwards. -/
inductive HandlerStep where
  | loadStudent
  | loadAnswersRecord
  | writeAnswerEntry
  | applyScoreUpdate
  | putStudent
  | putAnswers
  | recordEvent
  | commitTransaction
  | notifyProgress
deriving DecidableEq, BEq

/-- Order of the steps of a successful `AnswerHandler.post` request, read off
the source: every line of `update_assessment_transaction` runs inside the
transaction, so `EventEntity.record` precedes the commit, and only the
progress notification in `post` follows it. -/
def postRequestTrace : List HandlerStep :=
  [.loadStudent, .loadAnswersRecord, .writeAnswerEntry, .applyScoreUpdate,
   .putStudent, .putAnswers, .recordEvent, .commitTransaction, .notifyProgress]

/-- Position of a step in the request trace. -/
def stepPos (s : HandlerStep) : Nat :=
  postRequestTrace.findIdx (fun x => x == s)

/-- Reading a key just written returns the written value. -/
theorem alist_get_set_self {β : Type} (l : List (String × β)) (k : String) (v : β) :
    alist_get (alist_set l k v) k = some v := by
  induction l with
  | nil => simp [alist_set, alist_get]
  | cons p rest ih =>
    by_cases h : p.1 = k
    · simp [alist_set, alist_get, h]
    · simp [alist_set, alist_get, h, ih]

/-- Writing one key leaves every other key's binding unchanged. -/
theorem alist_get_set_ne {β : Type} (l : List (String × β)) (k k' : String) (v : β)
    (h : k' ≠ k) : alist_get (alist_set l k v) k' = alist_get l k' := by
  induction l with
  | nil => simp [alist_set, alist_get, Ne.symm h]
  | cons p rest ih =>
    by_cases hp : p.1 = k
    · simp [alist_set, alist_get, hp, Ne.symm h]
    · simp [alist_set, alist_get, hp, ih]

theorem bitlenAux_eq_size (fuel n : Nat) (h : n ≤ fuel) : bitlenAux fuel n = Nat.size n := by
  induction fuel generalizing n with
  | zero =>
    interval_cases n
    simp [bitlenAux, Nat.size_zero]
  | succ fuel ih =>
    by_cases hn : n = 0
    · simp [bitlenAux, hn, Nat.size_zero]
    · have hdiv : n / 2 ≤ fuel := by
        have : n / 2 < n := Nat.div_lt_self (Nat.pos_of_ne_zero hn) (by omega)
        omega
      have hsz : Nat.size (n / 2) + 1 = Nat.size n := by
        have hup : Nat.size n ≤ Nat.size (n / 2) + 1 := by
          rw [Nat.size_le]
          have h1 : n / 2 < 2 ^ Nat.size (n / 2) := Nat.lt_size_self (n / 2)
          have h2 : n ≤ 2 * (n / 2) + 1 := by omega
          calc n ≤ 2 * (n / 2) + 1 := h2
            _ < 2 * 2 ^ Nat.size (n / 2) := by omega
            _ = 2 ^ (Nat.size (n / 2) + 1) := by ring
        have hdown : Nat.size (n / 2) + 1 ≤ Nat.size n := by
          have : Nat.size (n / 2) < Nat.size n := by
            rw [Nat.lt_size]
            by_cases h0 : n / 2 = 0
            · have : n = 1 := by omega
              simp [h0, Nat.size_zero, this]
            · have hs : 0 < Nat.size (n / 2) := Nat.size_pos.mpr (Nat.pos_of_ne_zero h0)
              have hlow : 2 ^ (Nat.size (n / 2) - 1) ≤ n / 2 := by
                have := (Nat.lt_size (m := Nat.size (n / 2) - 1) (n := n / 2)).mp (by omega)
                exact this
              calc 2 ^ Nat.size (n / 2) = 2 * 2 ^ (Nat.size (n / 2) - 1) := by
                    rw [← pow_succ']
                    congr 1
                    omega
                _ ≤ 2 * (n / 2) := by omega
                _ ≤ n := by omega
          omega
        omega
      show (if n = 0 then 0 else bitlenAux fuel (n / 2) + 1) = Nat.size n
      rw [if_neg hn, ih (n / 2) hdiv, hsz]

/-- The fuelled binary length agrees with `Nat.size`. -/
theorem bitlen_eq_size (n : Nat) : bitlen n = Nat.size n :=
  bitlenAux_eq_size n n le_rfl

/-- Rounding to the grid never goes below the grid point at or below `n`. -/
theorem roundTies_ge (s n : Nat) : n / 2 ^ s * 2 ^ s ≤ roundTies s n := by
  simp only [roundTies]
  split_ifs <;> first | exact le_rfl | exact mul_le_mul_right' (by omega) _

/-- Rounding to the grid never goes above the grid point strictly above `n`. -/
theorem roundTies_le (s n : Nat) : roundTies s n ≤ (n / 2 ^ s + 1) * 2 ^ s := by
  simp only [roundTies]
  split_ifs <;> exact mul_le_mul_right' (by omega) _

/-- Round-to-nearest-even onto a fixed grid is monotone. -/
theorem roundTies_mono (s : Nat) {n m : Nat} (h : n ≤ m) :
    roundTies s n ≤ roundTies s m := by
  rcases lt_or_eq_of_le (Nat.div_le_div_right (c := 2 ^ s) h) with hq | hq
  · calc roundTies s n ≤ (n / 2 ^ s + 1) * 2 ^ s := roundTies_le s n
      _ ≤ m / 2 ^ s * 2 ^ s := mul_le_mul_right' (by omega) _
      _ ≤ roundTies s m := roundTies_ge s m
  · have h1 : n = 2 ^ s * (n / 2 ^ s) + n % 2 ^ s := (Nat.div_add_mod n (2 ^ s)).symm
    have h2 : m = 2 ^ s * (m / 2 ^ s) + m % 2 ^ s := (Nat.div_add_mod m (2 ^ s)).symm
    rw [← hq] at h2
    have hr : n % 2 ^ s ≤ m % 2 ^ s := by omega
    simp only [roundTies]
    rw [← hq]
    split_ifs <;> exact mul_le_mul_right' (by omega) _

/-- The rounded value stays below the power of two bounding its binade. -/
theorem flN_le_pow (n : Nat) : flN n ≤ 2 ^ bitlen n := by
  rw [flN]
  split_ifs with h
  · exact le_of_lt (by rw [bitlen_eq_size]; exact Nat.lt_size_self n)
  · have hlt : n < 2 ^ bitlen n := by rw [bitlen_eq_size]; exact Nat.lt_size_self n
    have hs : bitlen n - 53 ≤ bitlen n := by omega
    have hdiv : n / 2 ^ (bitlen n - 53) < 2 ^ (bitlen n - (bitlen n - 53)) := by
      rw [Nat.div_lt_iff_lt_mul (Nat.pos_pow_of_pos _ (by omega))]
      calc n < 2 ^ bitlen n := hlt
        _ = 2 ^ (bitlen n - (bitlen n - 53)) * 2 ^ (bitlen n - 53) := by
          rw [← pow_add]
          congr 1
          omega
    calc roundTies (bitlen n - 53) n ≤ (n / 2 ^ (bitlen n - 53) + 1) * 2 ^ (bitlen n - 53) :=
        roundTies_le _ n
      _ ≤ 2 ^ (bitlen n - (bitlen n - 53)) * 2 ^ (bitlen n - 53) :=
        mul_le_mul_right' (by omega) _
      _ = 2 ^ bitlen n := by rw [← pow_add]; congr 1; omega

/-- For a value needing rounding, the result stays in its binade. -/
theorem flN_ge_pow (m : Nat) (h : ¬bitlen m ≤ 53) : 2 ^ (bitlen m - 1) ≤ flN m := by
  rw [flN, if_neg h]
  have hm : 2 ^ (bitlen m - 1) ≤ m := by
    rw [bitlen_eq_size] at h ⊢
    exact (Nat.lt_size (m := Nat.size m - 1)).mp (by omega)
  have hs : bitlen m - 53 ≤ bitlen m - 1 := by omega
  have hdiv : 2 ^ (bitlen m - 1 - (bitlen m - 53)) ≤ m / 2 ^ (bitlen m - 53) := by
    have := Nat.div_le_div_right (c := 2 ^ (bitlen m - 53)) hm
    rwa [Nat.pow_div hs (by omega)] at this
  calc 2 ^ (bitlen m - 1)
      = 2 ^ (bitlen m - 1 - (bitlen m - 53)) * 2 ^ (bitlen m - 53) := by
        rw [← pow_add]; congr 1; omega
    _ ≤ m / 2 ^ (bitlen m - 53) * 2 ^ (bitlen m - 53) := mul_le_mul_right' hdiv _
    _ ≤ roundTies (bitlen m - 53) m := roundTies_ge _ m

/-- Rounding a nonnegative value to the nearest double is monotone. -/
theorem flN_mono {n m : Nat} (h : n ≤ m) : flN n ≤ flN m := by
  have hsize : bitlen n ≤ bitlen m := by
    rw [bitlen_eq_size, bitlen_eq_size]
    exact Nat.size_le_size h
  rcases lt_or_eq_of_le hsize with hlt | heq
  · by_cases hm : bitlen m ≤ 53
    · rw [flN, flN, if_pos (by omega), if_pos hm]; exact h
    · calc flN n ≤ 2 ^ bitlen n := flN_le_pow n
        _ ≤ 2 ^ (bitlen m - 1) := Nat.pow_le_pow_right (by omega) (by omega)
        _ ≤ flN m := flN_ge_pow m hm
  · by_cases hm : bitlen m ≤ 53
    · rw [flN, flN, if_pos (by omega), if_pos hm]; exact h
    · rw [flN, flN, if_neg (by omega), if_neg hm, heq]
      exact roundTies_mono _ h

/-- Rounding to the nearest double is monotone on signed values. -/
theorem flZ_mono {z w : Int} (h : z ≤ w) : flZ z ≤ flZ w := by
  rw [flZ, flZ]
  split_ifs with hz hw hw
  · exact_mod_cast flN_mono (Int.toNat_le_toNat h)
  · omega
  · omega
  · have : (-w).toNat ≤ (-z).toNat := Int.toNat_le_toNat (by omega)
    have := flN_mono this
    omega

/-- Rounding preserves nonnegativity. -/
theorem flZ_nonneg {z : Int} (h : 0 ≤ z) : 0 ≤ flZ z := by
  rw [flZ, if_pos h]; positivity

/-- Truncation toward zero of a scaled value is monotone. -/
theorem itrunc54_mono {z w : Int} (h : z ≤ w) : itrunc54 z ≤ itrunc54 w := by
  rw [itrunc54, itrunc54]
  split_ifs with hz hw hw
  · exact_mod_cast Nat.div_le_div_right (Int.toNat_le_toNat h)
  · omega
  · omega
  · have h1 : (-w).toNat ≤ (-z).toNat := Int.toNat_le_toNat (by omega)
    have := Nat.div_le_div_right (c := 2 ^ 54) h1
    omega

/-- Truncation preserves nonnegativity. -/
theorem itrunc54_nonneg {z : Int} (h : 0 ≤ z) : 0 ≤ itrunc54 z := by
  rw [itrunc54, if_pos h]; positivity

/-- The double-precision overall formula is monotone in the mid-course score. -/
theorem overall_float_mono_left {mid mid' post : Int} (h : mid ≤ mid') :
    overall_float mid post ≤ overall_float mid' post := by
  apply itrunc54_mono
  apply flZ_mono
  have : c3num * mid ≤ c3num * mid' :=
    mul_le_mul_of_nonneg_left h (by rw [c3num]; omega)
  exact add_le_add_right (flZ_mono this) _

/-- The double-precision overall formula is monotone in the post-course score. -/
theorem overall_float_mono_right {mid post post' : Int} (h : post ≤ post') :
    overall_float mid post ≤ overall_float mid post' := by
  apply itrunc54_mono
  apply flZ_mono
  have : c7num * post ≤ c7num * post' :=
    mul_le_mul_of_nonneg_left h (by rw [c7num]; omega)
  exact add_le_add_left (flZ_mono this) _

/-- The overall formula is nonnegative on nonnegative inputs. -/
theorem overall_float_nonneg {mid post : Int} (h1 : 0 ≤ mid) (h2 : 0 ≤ post) :
    0 ≤ overall_float mid post := by
  apply itrunc54_nonneg
  apply flZ_nonneg
  have a1 : 0 ≤ flZ (c3num * mid) :=
    flZ_nonneg (mul_nonneg (by rw [c3num]; omega) h1)
  have a2 : 0 ≤ flZ (c7num * post) :=
    flZ_nonneg (mul_nonneg (by rw [c7num]; omega) h2)
  omega


/-- The update rule never stores less than the candidate. -/
theorem updateVal_ge_score (o : Option Int) (s : Int) : s ≤ updateVal o s := by
  cases o with
  | none => exact le_rfl
  | some e =>
    rw [updateVal]
    split_ifs <;> omega

/-- The update rule never lowers an existing score. -/
theorem updateVal_ge_existing (e : Int) (s : Int) : e ≤ updateVal (some e) s := by
  rw [updateVal]
  split_ifs <;> omega

/-- Against an existing score the update rule stores the maximum. -/
theorem updateVal_some (e s : Int) : updateVal (some e) s = max e s := by
  rw [updateVal]
  split_ifs with h
  · exact (max_eq_right h.le).symm
  · exact (max_eq_left (by omega)).symm

/-- A candidate no higher than the existing score is discarded. -/
theorem updateVal_noop (v s : Int) (h : s ≤ v) : updateVal (some v) s = v := by
  rw [updateVal, if_neg (by omega)]

/-- After `store_score`, the submitted type holds the update rule's value. -/
theorem store_score_get_self (m : ScoreMap) (t : String) (s : Int) :
    get_score (store_score m t s).1 t = some (updateVal (get_score m t) s) := by
  simp only [store_score, get_score, set_score, updateVal]
  cases hE : alist_get m t with
  | none =>
    by_cases hF : t = "Fin"
    · subst hF
      simp [alist_get_set_ne _ _ _ _ (by decide : ("Fin" : String) ≠ "overall_score"),
        alist_get_set_self]
    · simp [hF, alist_get_set_self]
  | some e =>
    by_cases hc : s > e
    · by_cases hF : t = "Fin"
      · subst hF
        simp [hc, alist_get_set_ne _ _ _ _ (by decide : ("Fin" : String) ≠ "overall_score"),
          alist_get_set_self]
      · simp [hc, hF, alist_get_set_self]
    · by_cases hF : t = "Fin"
      · subst hF
        simp [hc, alist_get_set_ne _ _ _ _ (by decide : ("Fin" : String) ≠ "overall_score"), hE]
      · simp [hc, hF, hE]

/-- `store_score` touches no score entry other than the submitted type and
"overall_score". -/
theorem store_score_get_frame (m : ScoreMap) (t : String) (s : Int) (k : String)
    (hk : k ≠ t) (ho : k ≠ "overall_score") :
    get_score (store_score m t s).1 k = get_score m k := by
  simp only [store_score, get_score, set_score]
  cases hE : alist_get m t with
  | none =>
    by_cases hF : t = "Fin"
    · subst hF
      simp [alist_get_set_ne _ _ _ _ ho, alist_get_set_ne _ _ _ _ hk]
    · simp [hF, alist_get_set_ne _ _ _ _ hk]
  | some e =>
    by_cases hc : s > e
    · by_cases hF : t = "Fin"
      · subst hF
        simp [hc, alist_get_set_ne _ _ _ _ ho, alist_get_set_ne _ _ _ _ hk]
      · simp [hc, hF, alist_get_set_ne _ _ _ _ hk]
    · by_cases hF : t = "Fin"
      · subst hF
        simp [hc, alist_get_set_ne _ _ _ _ ho]
      · simp [hc, hF]

/-- On a final submission the stored overall score is the double-precision
formula applied to the stored mid-course score (0 when absent) and the
updated final score. -/
theorem store_score_fin_overall (m : ScoreMap) (s : Int) :
    get_score (store_score m "Fin" s).1 "overall_score" =
      some (overall_float ((get_score m "Mid").getD 0)
        (updateVal (get_score m "Fin") s)) := by
  cases hE : alist_get m "Fin" with
  | none =>
    simp [store_score, get_score, set_score, updateVal, hE,
      alist_get_set_ne _ _ _ _ (by decide : ("Mid" : String) ≠ "Fin"),
      alist_get_set_self]
  | some e =>
    by_cases hc : s > e
    · simp [store_score, get_score, set_score, updateVal, hE, hc,
        alist_get_set_ne _ _ _ _ (by decide : ("Mid" : String) ≠ "Fin"),
        alist_get_set_self]
    · simp [store_score, get_score, set_score, updateVal, hE, hc, alist_get_set_self]

/-- A submission of any type other than "Fin" and "overall_score" leaves the
stored overall score unchanged. -/
theorem store_score_overall_frame (m : ScoreMap) (t : String) (s : Int)
    (hF : t ≠ "Fin") (ho : t ≠ "overall_score") :
    get_score (store_score m t s).1 "overall_score" = get_score m "overall_score" := by
  simp only [store_score, get_score, set_score]
  cases hE : alist_get m t with
  | none => simp [hF, alist_get_set_ne _ _ _ _ (Ne.symm ho)]
  | some e =>
    by_cases hc : s > e
    · simp [hc, hF, alist_get_set_ne _ _ _ _ (Ne.symm ho)]
    · simp [hc, hF]

/-- The returned result: pass/fail by the 70 threshold on the computed
overall score for a final submission, absent otherwise. -/
theorem store_score_result (m : ScoreMap) (t : String) (s : Int) :
    (store_score m t s).2 =
      if t = "Fin" then
        some (if overall_float ((get_score m "Mid").getD 0)
            (updateVal (get_score m "Fin") s) ≥ 70 then "pass" else "fail")
      else none := by
  by_cases hF : t = "Fin"
  · subst hF
    cases hE : alist_get m "Fin" with
    | none =>
      simp [store_score, get_score, set_score, updateVal, hE,
        alist_get_set_ne _ _ _ _ (by decide : ("Mid" : String) ≠ "Fin")]
    | some e =>
      by_cases hc : s > e
      · simp [store_score, get_score, set_score, updateVal, hE, hc,
          alist_get_set_ne _ _ _ _ (by decide : ("Mid" : String) ≠ "Fin")]
      · simp [store_score, get_score, set_score, updateVal, hE, hc]
  · cases hE : alist_get m t with
    | none => simp [store_score, get_score, set_score, hE, hF]
    | some e =>
      by_cases hc : s > e
      · simp [store_score, get_score, set_score, hE, hc, hF]
      · simp [store_score, get_score, set_score, hE, hc, hF]

/-- A submission for an unknown learner fails with the not-found error. -/
theorem uat_none {α : Type} (st : Store α) (lid t : String) (a : α) (s : Int)
    (h : alist_get st.students lid = none) :
    update_assessment_transaction st lid t a s = .error .notFound := by
  simp only [update_assessment_transaction, h]

/-- A submission for a known learner commits both record updates and the
audit event. -/
theorem uat_some {α : Type} (st : Store α) (lid t : String) (a : α) (s : Int)
    (m : ScoreMap) (h : alist_get st.students lid = some m) :
    update_assessment_transaction st lid t a s =
      .ok
        ({ students := alist_set st.students lid (store_score m t s).1,
           answers := alist_set st.answers lid
             (set_answer ((alist_get st.answers lid).getD []) t a),
           events := st.events ++
             [⟨"submit-assessment", "assessment-" ++ t, a, "AnswerHandler"⟩] },
         (store_score m t s).2) := by
  simp only [update_assessment_transaction, h]

/-- Inversion: a successful transaction means the learner was known, and the
output store has the shape written by the transaction body. -/
theorem uat_ok {α : Type} (st st' : Store α) (lid t : String) (a : α) (s : Int)
    (r : Option String)
    (h : update_assessment_transaction st lid t a s = .ok (st', r)) :
    ∃ m, alist_get st.students lid = some m ∧
      st' = { students := alist_set st.students lid (store_score m t s).1,
              answers := alist_set st.answers lid
                (set_answer ((alist_get st.answers lid).getD []) t a),
              events := st.events ++
                [⟨"submit-assessment", "assessment-" ++ t, a, "AnswerHandler"⟩] } ∧
      r = (store_score m t s).2 := by
  cases hm : alist_get st.students lid with
  | none => rw [uat_none st lid t a s hm] at h; exact absurd h (by simp)
  | some m =>
    rw [uat_some st lid t a s m hm] at h
    refine ⟨m, rfl, ?_, ?_⟩
    · exact (congrArg (fun p => p.1) (Except.ok.inj h)).symm
    · exact (congrArg (fun p => p.2) (Except.ok.inj h)).symm

/-- The running maximum never drops below its starting value. -/
theorem foldl_max_le_init (v : Int) (l : List Int) : v ≤ l.foldl max v := by
  induction l generalizing v with
  | nil => exact le_rfl
  | cons a rest ih => exact le_trans (le_max_left v a) (ih (max v a))

/-- Every element of the list is below the running maximum. -/
theorem mem_le_foldl_max (l : List Int) (v : Int) :
    ∀ x ∈ l, x ≤ l.foldl max v := by
  induction l generalizing v with
  | nil => intro x hx; cases hx
  | cons a rest ih =>
    intro x hx
    cases hx with
    | head => exact le_trans (le_max_right v a) (foldl_max_le_init _ rest)
    | tail _ hx => exact ih (max v a) x hx

/-- Across a run of same-type submissions, the stored score for the type is
the running maximum of the existing score and all submitted scores. -/
theorem submitSeq_score {α : Type} (st : Store α) (lid t : String) (m : ScoreMap)
    (v : Int) (hm : alist_get st.students lid = some m) (hv : get_score m t = some v)
    (l : List (α × Int)) :
    scoreOf (submitSeq st lid t l) lid t =
      some (List.foldl max v (l.map Prod.snd)) := by
  induction l generalizing st m v with
  | nil => simp [submitSeq, scoreOf, hm, hv]
  | cons p rest ih =>
    rw [submitSeq, uat_some st lid t p.1 p.2 m hm]
    have hm1 : alist_get (alist_set st.students lid (store_score m t p.2).1) lid =
        some (store_score m t p.2).1 := alist_get_set_self _ _ _
    have hv1 : get_score (store_score m t p.2).1 t = some (max v p.2) := by
      rw [store_score_get_self, hv, updateVal_some]
    have := ih
      { students := alist_set st.students lid (store_score m t p.2).1,
        answers := alist_set st.answers lid
          (set_answer ((alist_get st.answers lid).getD []) t p.1),
        events := st.events ++
          [⟨"submit-assessment", "assessment-" ++ t, p.1, "AnswerHandler"⟩] }
      (store_score m t p.2).1 (max v p.2) hm1 hv1
    simpa using this

/-- C1: for every learner and every sequence of submissions of the same
assessment type, the score stored for that type afterwards equals the
maximum of all submitted (already rounded) scores and is never below any of
them; the first candidate on an absent type is stored as-is, so the maximum
ranges exactly over the submitted scores. -/
theorem c1_stored_score_is_max {α : Type} (st : Store α) (lid t : String)
    (m : ScoreMap) (hm : alist_get st.students lid = some m)
    (h0 : get_score m t = none) (p : α × Int) (l : List (α × Int)) :
    scoreOf (submitSeq st lid t (p :: l)) lid t =
        some (List.foldl max p.2 (l.map Prod.snd)) ∧
      ∀ x ∈ (p :: l).map Prod.snd, x ≤ List.foldl max p.2 (l.map Prod.snd) := by
  constructor
  · rw [submitSeq, uat_some st lid t p.1 p.2 m hm]
    have hm1 : alist_get (alist_set st.students lid (store_score m t p.2).1) lid =
        some (store_score m t p.2).1 := alist_get_set_self _ _ _
    have hv1 : get_score (store_score m t p.2).1 t = some p.2 := by
      rw [store_score_get_self, h0]
      rfl
    exact submitSeq_score
      { students := alist_set st.students lid (store_score m t p.2).1,
        answers := alist_set st.answers lid
          (set_answer ((alist_get st.answers lid).getD []) t p.1),
        events := st.events ++
          [⟨"submit-assessment", "assessment-" ++ t, p.1, "AnswerHandler"⟩] }
      lid t _ p.2 hm1 hv1 l
  · intro x hx
    simp only [List.map_cons] at hx
    cases hx with
    | head => exact foldl_max_le_init p.2 (l.map Prod.snd)
    | tail _ hx => exact mem_le_foldl_max (l.map Prod.snd) p.2 x hx

/-- Witness for C1 at a concrete learner and submission sequence. -/
theorem c1_stored_score_is_max_witness :
    alist_get (Store.students (⟨[("alice", [])], [], []⟩ : Store Nat)) "alice" =
        some [] ∧
      get_score [] "Mid" = none ∧
      (scoreOf (submitSeq (⟨[("alice", [])], [], []⟩ : Store Nat) "alice" "Mid"
            [((1 : Nat), (5 : Int)), (2, 3), (3, 9)]) "alice" "Mid" =
          some (List.foldl max 5 ([((2 : Nat), (3 : Int)), (3, 9)].map Prod.snd)) ∧
        ∀ x ∈ ([((1 : Nat), (5 : Int)), (2, 3), (3, 9)]).map Prod.snd,
          x ≤ List.foldl max 5 ([((2 : Nat), (3 : Int)), (3, 9)].map Prod.snd)) :=
  ⟨rfl, rfl,
    c1_stored_score_is_max (⟨[("alice", [])], [], []⟩ : Store Nat) "alice" "Mid" []
      rfl rfl (1, 5) [(2, 3), (3, 9)]⟩

/-- C2 fails on the code: submitting "Fin" with score 90 to a learner with
no stored scores stores 62 under "overall_score", while the spec's exact
formula floor(0.3 * 0 + 0.7 * 90) = 63; the source evaluates the formula in
binary floating point, where 0.3 * 0 + 0.7 * 90 is 62.99999999999999. -/
theorem c2_counterexample :
    get_score (store_score [] "Fin" 90).1 "overall_score" = some 62 ∧
      overall_exact 0 90 = 63 ∧ (62 : Int) ≠ 63 := by
  refine ⟨by decide, ?_, by decide⟩
  rw [overall_exact]
  norm_num

/-- C2 (amended): on a "Fin" submission the value stored under
"overall_score" equals the IEEE double-precision evaluation (with final
truncation toward zero) of 0.3 * mid + 0.7 * postCourse — not its exact
floor — where mid is the stored "Mid" score (0 if absent) and postCourse is
the updated final score after the max-update rule, which is also what ends
up stored under "Fin". -/
theorem c2_overall_is_float (m : ScoreMap) (s : Int) :
    get_score (store_score m "Fin" s).1 "Fin" =
        some (updateVal (get_score m "Fin") s) ∧
      get_score (store_score m "Fin" s).1 "overall_score" =
        some (overall_float ((get_score m "Mid").getD 0)
          (updateVal (get_score m "Fin") s)) :=
  ⟨store_score_get_self m "Fin" s, store_score_fin_overall m s⟩

/-- C3: the result is "pass" exactly when the computed overall score reaches
the inclusive threshold 70, "fail" exactly when it is below 70, and absent
exactly when the assessment type is not "Fin". -/
theorem c3_result_threshold (m : ScoreMap) (t : String) (s : Int) :
    ((store_score m t s).2 = none ↔ t ≠ "Fin") ∧
      (∀ v, t = "Fin" →
        get_score (store_score m t s).1 "overall_score" = some v →
          (((store_score m t s).2 = some "pass" ↔ 70 ≤ v) ∧
            ((store_score m t s).2 = some "fail" ↔ v < 70))) := by
  constructor
  · rw [store_score_result]
    by_cases hF : t = "Fin"
    · simp [hF]
    · simp [hF]
  · intro v hF hv
    subst hF
    rw [store_score_fin_overall] at hv
    have hv' : overall_float ((get_score m "Mid").getD 0)
        (updateVal (get_score m "Fin") s) = v := by
      injection hv
    rw [store_score_result, if_pos rfl, hv']
    by_cases h70 : v ≥ 70
    · constructor
      · simp [h70]
      · simp only [h70, if_pos]
        constructor
        · intro hpf
          exact absurd hpf (by simp)
        · intro hlt
          omega
    · constructor
      · simp only [if_neg h70]
        constructor
        · intro hpf
          exact absurd hpf (by simp)
        · intro hge
          omega
      · simp [h70]
        omega

/-- Witness for C3 on the concrete failing-side submission of
`c2_counterexample`: overall 62 is below the threshold. -/
theorem c3_result_threshold_witness :
    ((store_score [] "Fin" (90 : Int)).2 = some "pass" ↔ (70 : Int) ≤ 62) ∧
      ((store_score [] "Fin" (90 : Int)).2 = some "fail" ↔ (62 : Int) < 70) :=
  (c3_result_threshold [] "Fin" 90).2 62 rfl (by decide)

/-- C4: the answers entry for a type always holds the payload of the most
recent submission of that type, regardless of score: a lower-scoring second
submission leaves the stored score unchanged while overwriting the stored
answers with the newer payload. -/
theorem c4_answers_track_latest {α : Type} (st st1 st2 : Store α) (lid t : String)
    (a1 a2 : α) (s1 s2 : Int) (r1 r2 : Option String)
    (h1 : update_assessment_transaction st lid t a1 s1 = .ok (st1, r1))
    (h2 : update_assessment_transaction st1 lid t a2 s2 = .ok (st2, r2))
    (hs : s2 ≤ s1) :
    answerOf st1 lid t = some a1 ∧ answerOf st2 lid t = some a2 ∧
      scoreOf st2 lid t = scoreOf st1 lid t := by
  obtain ⟨m, hm, hst1, hr1⟩ := uat_ok st st1 lid t a1 s1 r1 h1
  obtain ⟨m1, hm1, hst2, hr2⟩ := uat_ok st1 st2 lid t a2 s2 r2 h2
  subst hst1
  subst hst2
  rw [alist_get_set_self] at hm1
  have hm1' : m1 = (store_score m t s1).1 := (Option.some.inj hm1).symm
  subst hm1'
  refine ⟨?_, ?_, ?_⟩
  · simp [answerOf, alist_get_set_self, set_answer]
  · simp [answerOf, alist_get_set_self, set_answer]
  · simp only [scoreOf]
    rw [alist_get_set_self, alist_get_set_self]
    simp only [Option.getD_some]
    rw [store_score_get_self, store_score_get_self,
      updateVal_noop _ _ (le_trans hs (updateVal_ge_score (get_score m t) s1))]

/-- Witness for C4: submitting "Mid" with score 80 then with score 50 for one
learner keeps the stored score 80 while the stored answers become the second
payload. -/
theorem c4_answers_track_latest_witness :
    update_assessment_transaction (⟨[("alice", [])], [], []⟩ : Store Nat)
        "alice" "Mid" 7 80 =
      .ok (⟨[("alice", [("Mid", 80)])], [("alice", [("Mid", 7)])],
        [⟨"submit-assessment", "assessment-Mid", 7, "AnswerHandler"⟩]⟩, none) ∧
    update_assessment_transaction
        (⟨[("alice", [("Mid", 80)])], [("alice", [("Mid", 7)])],
          [⟨"submit-assessment", "assessment-Mid", 7, "AnswerHandler"⟩]⟩ : Store Nat)
        "alice" "Mid" 8 50 =
      .ok (⟨[("alice", [("Mid", 80)])], [("alice", [("Mid", 8)])],
        [⟨"submit-assessment", "assessment-Mid", 7, "AnswerHandler"⟩,
         ⟨"submit-assessment", "assessment-Mid", 8, "AnswerHandler"⟩]⟩, none) ∧
    (50 : Int) ≤ 80 ∧
    (answerOf (⟨[("alice", [("Mid", 80)])], [("alice", [("Mid", 7)])],
        [⟨"submit-assessment", "assessment-Mid", 7, "AnswerHandler"⟩]⟩ : Store Nat)
        "alice" "Mid" = some 7 ∧
      answerOf (⟨[("alice", [("Mid", 80)])], [("alice", [("Mid", 8)])],
        [⟨"submit-assessment", "assessment-Mid", 7, "AnswerHandler"⟩,
         ⟨"submit-assessment", "assessment-Mid", 8, "AnswerHandler"⟩]⟩ : Store Nat)
        "alice" "Mid" = some 8 ∧
      scoreOf (⟨[("alice", [("Mid", 80)])], [("alice", [("Mid", 8)])],
        [⟨"submit-assessment", "assessment-Mid", 7, "AnswerHandler"⟩,
         ⟨"submit-assessment", "assessment-Mid", 8, "AnswerHandler"⟩]⟩ : Store Nat)
        "alice" "Mid" =
      scoreOf (⟨[("alice", [("Mid", 80)])], [("alice", [("Mid", 7)])],
        [⟨"submit-assessment", "assessment-Mid", 7, "AnswerHandler"⟩]⟩ : Store Nat)
        "alice" "Mid") :=
  ⟨rfl, rfl, by decide,
    c4_answers_track_latest (⟨[("alice", [])], [], []⟩ : Store Nat)
      (⟨[("alice", [("Mid", 80)])], [("alice", [("Mid", 7)])],
        [⟨"submit-assessment", "assessment-Mid", 7, "AnswerHandler"⟩]⟩ : Store Nat)
      (⟨[("alice", [("Mid", 80)])], [("alice", [("Mid", 8)])],
        [⟨"submit-assessment", "assessment-Mid", 7, "AnswerHandler"⟩,
         ⟨"submit-assessment", "assessment-Mid", 8, "AnswerHandler"⟩]⟩ : Store Nat)
      "alice" "Mid" 7 8 80 50 none none rfl rfl (by decide)⟩

/-- C5: a submission for an unknown learner fails with the not-found error
and returns the stores untouched: no partial write, no answers record, no
event. -/
theorem c5_unknown_learner {α : Type} (st : Store α) (lid t : String) (a : α)
    (s : Int) (h : alist_get st.students lid = none) :
    runSubmission st lid t a s none = (st, .error .notFound) := by
  simp only [runSubmission, uat_none st lid t a s h]

/-- Witness for C5 on an empty store. -/
theorem c5_unknown_learner_witness :
    alist_get (Store.students (⟨[], [], []⟩ : Store Nat)) "bob" = none ∧
      runSubmission (⟨[], [], []⟩ : Store Nat) "bob" "Fin" 0 90 none =
        ((⟨[], [], []⟩ : Store Nat), .error .notFound) :=
  ⟨rfl, c5_unknown_learner (⟨[], [], []⟩ : Store Nat) "bob" "Fin" 0 90 rfl⟩

/-- C6 fails on the code: `EventEntity.record` is called inside the
transactional method, so the audit event is recorded before the commit that
the `db.transactional` decorator performs on return, not strictly after
it. -/
theorem c6_counterexample :
    stepPos .recordEvent < stepPos .commitTransaction ∧
      ¬ stepPos .commitTransaction < stepPos .recordEvent := by
  constructor
  · decide
  · decide

/-- C6 (amended): the audit event is recorded as the last step inside the
transaction, immediately before commit, and is atomic with it — no event
survives a failed attempt — while only the progress notification runs
strictly after commit. -/
theorem c6_event_inside_transaction {α : Type} (st : Store α) (lid t : String)
    (a : α) (s : Int) (c : Option Nat) (e : SubmitError)
    (h : (runSubmission st lid t a s c).2 = .error e) :
    stepPos .recordEvent + 1 = stepPos .commitTransaction ∧
      stepPos .commitTransaction < stepPos .notifyProgress ∧
      (runSubmission st lid t a s c).1.events = st.events := by
  refine ⟨by decide, by decide, ?_⟩
  cases c with
  | some n => rfl
  | none =>
    cases huat : update_assessment_transaction st lid t a s with
    | error e' => simp [runSubmission, huat]
    | ok p =>
      exfalso
      obtain ⟨st', r'⟩ := p
      simp [runSubmission, huat] at h

/-- Witness for C6 at a concrete failed attempt. -/
theorem c6_event_inside_transaction_witness :
    (runSubmission (⟨[], [], []⟩ : Store Nat) "bob" "Mid" 0 5 none).2 =
        .error .notFound ∧
      (stepPos .recordEvent + 1 = stepPos .commitTransaction ∧
        stepPos .commitTransaction < stepPos .notifyProgress ∧
        (runSubmission (⟨[], [], []⟩ : Store Nat) "bob" "Mid" 0 5 none).1.events =
          (⟨[], [], []⟩ : Store Nat).events) :=
  ⟨rfl, c6_event_inside_transaction (⟨[], [], []⟩ : Store Nat) "bob" "Mid" 0 5 none
    .notFound rfl⟩

/-- Re-running `store_score` with the same inputs leaves every score entry as
after the first run. -/
theorem store_score_idem_get (m : ScoreMap) (t : String) (s : Int) (k : String) :
    get_score (store_score (store_score m t s).1 t s).1 k =
      get_score (store_score m t s).1 k := by
  have hvt : get_score (store_score m t s).1 t =
      some (updateVal (get_score m t) s) := store_score_get_self m t s
  have hs_le : s ≤ updateVal (get_score m t) s := updateVal_ge_score _ s
  by_cases hF : t = "Fin"
  · subst hF
    by_cases hk : k = "Fin"
    · subst hk
      rw [store_score_get_self ((store_score m "Fin" s).1) "Fin" s, hvt,
        updateVal_noop _ _ hs_le]
    · by_cases ho : k = "overall_score"
      · subst ho
        rw [store_score_fin_overall ((store_score m "Fin" s).1) s,
          store_score_fin_overall m s,
          store_score_get_frame m "Fin" s "Mid" (by decide) (by decide), hvt,
          updateVal_noop _ _ hs_le]
      · rw [store_score_get_frame _ "Fin" s k hk ho]
  · have hunch : (store_score (store_score m t s).1 t s).1 = (store_score m t s).1 := by
      have hvt' : alist_get (store_score m t s).1 t =
          some (updateVal (get_score m t) s) := hvt
      generalize hX : (store_score m t s).1 = X at hvt' ⊢
      simp only [store_score, get_score, set_score]
      rw [hvt']
      simp [hF, not_lt.mpr hs_le]
    rw [hunch]

/-- Re-running `store_score` with the same inputs returns the same result. -/
theorem store_score_idem_result (m : ScoreMap) (t : String) (s : Int) :
    (store_score (store_score m t s).1 t s).2 = (store_score m t s).2 := by
  rw [store_score_result, store_score_result]
  by_cases hF : t = "Fin"
  · subst hF
    rw [store_score_get_frame m "Fin" s "Mid" (by decide) (by decide),
      store_score_get_self m "Fin" s,
      updateVal_noop _ _ (updateVal_ge_score (get_score m "Fin") s)]
  · simp [hF]

/-- Double-writing the same answer payload changes nothing after the first
write. -/
theorem alist_set_set_get {β : Type} (l : List (String × β)) (k : String) (v : β)
    (k' : String) :
    alist_get (alist_set (alist_set l k v) k v) k' = alist_get (alist_set l k v) k' := by
  by_cases hk : k' = k
  · subst hk
    rw [alist_get_set_self, alist_get_set_self]
  · rw [alist_get_set_ne _ _ _ _ hk]

/-- C7: the submission transaction is idempotent under retry: running it
twice with the same inputs leaves every learner's score mapping and answers
entries exactly as one run does, and returns the same result. -/
theorem c7_idempotent_retry {α : Type} (st st1 st2 : Store α) (lid t : String)
    (a : α) (s : Int) (r1 r2 : Option String)
    (h1 : update_assessment_transaction st lid t a s = .ok (st1, r1))
    (h2 : update_assessment_transaction st1 lid t a s = .ok (st2, r2)) :
    (∀ lid' k, scoreOf st2 lid' k = scoreOf st1 lid' k) ∧
      (∀ lid' k, answerOf st2 lid' k = answerOf st1 lid' k) ∧ r2 = r1 := by
  obtain ⟨m, hm, hst1, hr1⟩ := uat_ok st st1 lid t a s r1 h1
  obtain ⟨m1, hm1, hst2, hr2⟩ := uat_ok st1 st2 lid t a s r2 h2
  subst hst1
  subst hst2
  rw [alist_get_set_self] at hm1
  have hm1' : m1 = (store_score m t s).1 := (Option.some.inj hm1).symm
  subst hm1'
  refine ⟨?_, ?_, ?_⟩
  · intro lid' k
    by_cases hl : lid' = lid
    · subst hl
      simp only [scoreOf]
      rw [alist_get_set_self, alist_get_set_self]
      simp only [Option.getD_some]
      exact store_score_idem_get m t s k
    · simp only [scoreOf]
      rw [alist_get_set_ne _ _ _ _ hl]
  · intro lid' k
    by_cases hl : lid' = lid
    · subst hl
      simp only [answerOf]
      rw [alist_get_set_self, alist_get_set_self]
      simp only [Option.getD_some, set_answer]
      exact alist_set_set_get _ t a k
    · simp only [answerOf]
      rw [alist_get_set_ne _ _ _ _ hl]
  · rw [hr1, hr2, store_score_idem_result]

/-- Witness for C7: running the same "Fin" submission twice. -/
theorem c7_idempotent_retry_witness :
    update_assessment_transaction (⟨[("alice", [])], [], []⟩ : Store Nat)
        "alice" "Fin" 1 90 =
      .ok (⟨[("alice", [("Fin", 90), ("overall_score", 62)])],
        [("alice", [("Fin", 1)])],
        [⟨"submit-assessment", "assessment-Fin", 1, "AnswerHandler"⟩]⟩,
        some "fail") ∧
    update_assessment_transaction
        (⟨[("alice", [("Fin", 90), ("overall_score", 62)])],
          [("alice", [("Fin", 1)])],
          [⟨"submit-assessment", "assessment-Fin", 1, "AnswerHandler"⟩]⟩ : Store Nat)
        "alice" "Fin" 1 90 =
      .ok (⟨[("alice", [("Fin", 90), ("overall_score", 62)])],
        [("alice", [("Fin", 1)])],
        [⟨"submit-assessment", "assessment-Fin", 1, "AnswerHandler"⟩,
         ⟨"submit-assessment", "assessment-Fin", 1, "AnswerHandler"⟩]⟩,
        some "fail") ∧
    scoreOf (⟨[("alice", [("Fin", 90), ("overall_score", 62)])],
        [("alice", [("Fin", 1)])],
        [⟨"submit-assessment", "assessment-Fin", 1, "AnswerHandler"⟩,
         ⟨"submit-assessment", "assessment-Fin", 1, "AnswerHandler"⟩]⟩ : Store Nat)
        "alice" "overall_score" =
      scoreOf (⟨[("alice", [("Fin", 90), ("overall_score", 62)])],
        [("alice", [("Fin", 1)])],
        [⟨"submit-assessment", "assessment-Fin", 1, "AnswerHandler"⟩]⟩ : Store Nat)
        "alice" "overall_score" :=
  ⟨rfl, rfl,
    (c7_idempotent_retry (⟨[("alice", [])], [], []⟩ : Store Nat)
      (⟨[("alice", [("Fin", 90), ("overall_score", 62)])],
        [("alice", [("Fin", 1)])],
        [⟨"submit-assessment", "assessment-Fin", 1, "AnswerHandler"⟩]⟩ : Store Nat)
      (⟨[("alice", [("Fin", 90), ("overall_score", 62)])],
        [("alice", [("Fin", 1)])],
        [⟨"submit-assessment", "assessment-Fin", 1, "AnswerHandler"⟩,
         ⟨"submit-assessment", "assessment-Fin", 1, "AnswerHandler"⟩]⟩ : Store Nat)
      "alice" "Fin" 1 90 (some "fail") (some "fail") rfl rfl).1
      "alice" "overall_score"⟩

/-- C8 fails as stated: a submission whose assessment type is the synthetic
key "overall_score" itself is not "Fin", yet it changes the stored
overall_score through the max-update rule. -/
theorem c8_counterexample :
    ("overall_score" : String) ≠ "Fin" ∧
      get_score ([] : ScoreMap) "overall_score" = none ∧
      get_score (store_score [] "overall_score" 50).1 "overall_score" = some 50 ∧
      some (50 : Int) ≠ (none : Option Int) := by
  refine ⟨by decide, rfl, by decide, by decide⟩

/-- C8 (amended): a submission of any type other than "Fin" and the
synthetic key "overall_score" leaves the stored overall score unchanged, and
every submission modifies at most the score entries for the submitted type
and "overall_score", leaving all other entries and all other learners
untouched. -/
theorem c8_overall_only_on_fin {α : Type} (st st' : Store α) (lid t : String)
    (a : α) (s : Int) (r : Option String)
    (h : update_assessment_transaction st lid t a s = .ok (st', r)) :
    (t ≠ "Fin" → t ≠ "overall_score" →
        scoreOf st' lid "overall_score" = scoreOf st lid "overall_score") ∧
      (∀ k, k ≠ t → k ≠ "overall_score" → scoreOf st' lid k = scoreOf st lid k) ∧
      (∀ lid', lid' ≠ lid → ∀ k, scoreOf st' lid' k = scoreOf st lid' k) := by
  obtain ⟨m, hm, hst, hr⟩ := uat_ok st st' lid t a s r h
  subst hst
  refine ⟨?_, ?_, ?_⟩
  · intro hF ho
    simp only [scoreOf]
    rw [alist_get_set_self, hm]
    simp only [Option.getD_some]
    exact store_score_overall_frame m t s hF ho
  · intro k hk ho
    simp only [scoreOf]
    rw [alist_get_set_self, hm]
    simp only [Option.getD_some]
    exact store_score_get_frame m t s k hk ho
  · intro lid' hl k
    simp only [scoreOf]
    rw [alist_get_set_ne _ _ _ _ hl]

/-- Witness for C8: a "Mid" submission leaves overall_score and "Fin"
untouched. -/
theorem c8_overall_only_on_fin_witness :
    update_assessment_transaction (⟨[("alice", [])], [], []⟩ : Store Nat)
        "alice" "Mid" 3 80 =
      .ok (⟨[("alice", [("Mid", 80)])], [("alice", [("Mid", 3)])],
        [⟨"submit-assessment", "assessment-Mid", 3, "AnswerHandler"⟩]⟩, none) ∧
    scoreOf (⟨[("alice", [("Mid", 80)])], [("alice", [("Mid", 3)])],
        [⟨"submit-assessment", "assessment-Mid", 3, "AnswerHandler"⟩]⟩ : Store Nat)
        "alice" "overall_score" =
      scoreOf (⟨[("alice", [])], [], []⟩ : Store Nat) "alice" "overall_score" ∧
    scoreOf (⟨[("alice", [("Mid", 80)])], [("alice", [("Mid", 3)])],
        [⟨"submit-assessment", "assessment-Mid", 3, "AnswerHandler"⟩]⟩ : Store Nat)
        "alice" "Fin" =
      scoreOf (⟨[("alice", [])], [], []⟩ : Store Nat) "alice" "Fin" :=
  ⟨rfl,
    (c8_overall_only_on_fin (⟨[("alice", [])], [], []⟩ : Store Nat)
      (⟨[("alice", [("Mid", 80)])], [("alice", [("Mid", 3)])],
        [⟨"submit-assessment", "assessment-Mid", 3, "AnswerHandler"⟩]⟩ : Store Nat)
      "alice" "Mid" 3 80 none rfl).1 (by decide) (by decide),
    (c8_overall_only_on_fin (⟨[("alice", [])], [], []⟩ : Store Nat)
      (⟨[("alice", [("Mid", 80)])], [("alice", [("Mid", 3)])],
        [⟨"submit-assessment", "assessment-Mid", 3, "AnswerHandler"⟩]⟩ : Store Nat)
      "alice" "Mid" 3 80 none rfl).2.1 "Fin" (by decide) (by decide)⟩

/-- C9: the transaction is all-or-nothing: any failed or aborted attempt
returns both records exactly as they were, and a committed attempt performs
the score update and the matching answers update together. -/
theorem c9_all_or_nothing {α : Type} (st : Store α) (lid t : String) (a : α)
    (s : Int) (c : Option Nat) :
    (∀ e, (runSubmission st lid t a s c).2 = .error e →
        (runSubmission st lid t a s c).1 = st) ∧
      (∀ r, (runSubmission st lid t a s c).2 = .ok r →
        ∃ m, alist_get st.students lid = some m ∧
          scoreOf (runSubmission st lid t a s c).1 lid t =
              some (updateVal (get_score m t) s) ∧
          answerOf (runSubmission st lid t a s c).1 lid t = some a) := by
  cases c with
  | some n => exact ⟨fun e _ => rfl, fun r h => by simp [runSubmission] at h⟩
  | none =>
    cases huat : update_assessment_transaction st lid t a s with
    | error e' =>
      refine ⟨fun e _ => ?_, fun r h => ?_⟩
      · simp [runSubmission, huat]
      · simp [runSubmission, huat] at h
    | ok p =>
      obtain ⟨st', r'⟩ := p
      obtain ⟨m, hm, hst, hr⟩ := uat_ok st st' lid t a s r' huat
      refine ⟨fun e h => ?_, fun r _ => ?_⟩
      · simp [runSubmission, huat] at h
      · refine ⟨m, hm, ?_, ?_⟩
        · simp only [runSubmission, huat]
          subst hst
          simp only [scoreOf]
          rw [alist_get_set_self]
          simp only [Option.getD_some]
          exact store_score_get_self m t s
        · simp only [runSubmission, huat]
          subst hst
          simp only [answerOf]
          rw [alist_get_set_self]
          simp only [Option.getD_some, set_answer]
          exact alist_get_set_self _ t a

/-- Witness for C9: a failed attempt at an unknown learner keeps the store;
a committed attempt updates score and answers together. -/
theorem c9_all_or_nothing_witness :
    ((runSubmission (⟨[], [], []⟩ : Store Nat) "bob" "Mid" 0 5 none).2 =
        .error .notFound ∧
      (runSubmission (⟨[], [], []⟩ : Store Nat) "bob" "Mid" 0 5 none).1 =
        (⟨[], [], []⟩ : Store Nat)) ∧
      ((runSubmission (⟨[("alice", [])], [], []⟩ : Store Nat)
          "alice" "Mid" 4 60 none).2 = .ok none ∧
        ∃ m, alist_get (Store.students (⟨[("alice", [])], [], []⟩ : Store Nat))
            "alice" = some m ∧
          scoreOf (runSubmission (⟨[("alice", [])], [], []⟩ : Store Nat)
              "alice" "Mid" 4 60 none).1 "alice" "Mid" =
            some (updateVal (get_score m "Mid") 60) ∧
          answerOf (runSubmission (⟨[("alice", [])], [], []⟩ : Store Nat)
              "alice" "Mid" 4 60 none).1 "alice" "Mid" = some 4) :=
  ⟨⟨rfl, (c9_all_or_nothing (⟨[], [], []⟩ : Store Nat) "bob" "Mid" 0 5 none).1
      .notFound rfl⟩,
    ⟨rfl, (c9_all_or_nothing (⟨[("alice", [])], [], []⟩ : Store Nat)
      "alice" "Mid" 4 60 none).2 none rfl⟩⟩

/-- One submission of a type other than "overall_score", with a nonnegative
score, preserves the overall-score invariant, keeps all scores nonnegative,
and never lowers the stored overall score. -/
theorem store_score_inv_step (m : ScoreMap) (t : String) (s : Int)
    (ht : t ≠ "overall_score") (hs : 0 ≤ s)
    (hInv : OverallInv m) (hNn : NonnegScores m) :
    OverallInv (store_score m t s).1 ∧ NonnegScores (store_score m t s).1 ∧
      ∀ v v', get_score m "overall_score" = some v →
        get_score (store_score m t s).1 "overall_score" = some v' → v ≤ v' := by
  have hmid0 : 0 ≤ (get_score m "Mid").getD 0 := by
    cases hM : get_score m "Mid" with
    | none => simp
    | some x => simpa using hNn "Mid" x hM
  by_cases hF : t = "Fin"
  · subst hF
    have hMid : get_score (store_score m "Fin" s).1 "Mid" = get_score m "Mid" :=
      store_score_get_frame m "Fin" s "Mid" (by decide) (by decide)
    have hFin : get_score (store_score m "Fin" s).1 "Fin" =
        some (updateVal (get_score m "Fin") s) := store_score_get_self m "Fin" s
    have hOv := store_score_fin_overall m s
    have hpost0 : 0 ≤ updateVal (get_score m "Fin") s :=
      le_trans hs (updateVal_ge_score _ s)
    refine ⟨?_, ?_, ?_⟩
    · intro v hv
      rw [hOv] at hv
      have hveq : overall_float ((get_score m "Mid").getD 0)
          (updateVal (get_score m "Fin") s) = v := Option.some.inj hv
      refine ⟨updateVal (get_score m "Fin") s, hFin, ?_⟩
      rw [hMid]
      exact le_of_eq hveq.symm
    · intro k v hv
      by_cases hko : k = "overall_score"
      · subst hko
        rw [hOv] at hv
        rw [← Option.some.inj hv]
        exact overall_float_nonneg hmid0 hpost0
      · by_cases hkF : k = "Fin"
        · subst hkF
          rw [hFin] at hv
          rw [← Option.some.inj hv]
          exact hpost0
        · rw [store_score_get_frame m "Fin" s k hkF hko] at hv
          exact hNn k v hv
    · intro v v' hv hv'
      rw [hOv] at hv'
      obtain ⟨f, hf, hle⟩ := hInv v hv
      rw [← Option.some.inj hv', hf]
      exact le_trans hle (overall_float_mono_right (updateVal_ge_existing f s))
  · have hOv : get_score (store_score m t s).1 "overall_score" =
        get_score m "overall_score" := store_score_overall_frame m t s hF ht
    have hmid_le : (get_score m "Mid").getD 0 ≤
        (get_score (store_score m t s).1 "Mid").getD 0 := by
      by_cases htM : t = "Mid"
      · subst htM
        rw [store_score_get_self m "Mid" s]
        cases hM : get_score m "Mid" with
        | none => simpa [updateVal] using hs
        | some x => simpa using updateVal_ge_existing x s
      · rw [store_score_get_frame m t s "Mid" (fun hh => htM hh.symm) (by decide)]
    have hFin : get_score (store_score m t s).1 "Fin" = get_score m "Fin" :=
      store_score_get_frame m t s "Fin" (fun hh => hF hh.symm) (by decide)
    refine ⟨?_, ?_, ?_⟩
    · intro v hv
      rw [hOv] at hv
      obtain ⟨f, hf, hle⟩ := hInv v hv
      refine ⟨f, ?_, le_trans hle (overall_float_mono_left hmid_le)⟩
      rw [hFin]
      exact hf
    · intro k v hv
      by_cases hkt : k = t
      · subst hkt
        rw [store_score_get_self m k s] at hv
        rw [← Option.some.inj hv]
        exact le_trans hs (updateVal_ge_score _ s)
      · by_cases hko : k = "overall_score"
        · subst hko
          rw [hOv] at hv
          exact hNn _ v hv
        · rw [store_score_get_frame m t s k hkt hko] at hv
          exact hNn k v hv
    · intro v v' hv hv'
      rw [hOv, hv] at hv'
      rw [← Option.some.inj hv']

/-- C10 fails as stated: a submission typed "overall_score" raises the
stored overall score to 100 through the max rule, and a following "Fin"
submission with score 0 rewrites it unconditionally down to 0. -/
theorem c10_counterexample :
    get_score (scoreFold [] [("overall_score", 100)]) "overall_score" =
        some 100 ∧
      get_score (scoreFold [] [("overall_score", 100), ("Fin", 0)])
        "overall_score" = some 0 ∧
      ¬ (100 : Int) ≤ 0 := by
  refine ⟨by decide, by decide, by decide⟩

/-- C10 (amended): across any sequence of submissions whose types are not
the synthetic key "overall_score" and whose scores are nonnegative, the
stored overall score is monotone non-decreasing, because the stored mid and
final scores are monotone and the double-precision weighted-sum-then-
truncate computation is monotone in each argument. -/
theorem c10_overall_monotone (l : List (String × Int)) :
    ∀ (m : ScoreMap) (v v' : Int),
      (∀ p ∈ l, p.1 ≠ "overall_score" ∧ 0 ≤ p.2) →
      OverallInv m → NonnegScores m →
      get_score m "overall_score" = some v →
      get_score (scoreFold m l) "overall_score" = some v' → v ≤ v' := by
  induction l with
  | nil =>
    intro m v v' _ _ _ hv hv'
    rw [scoreFold] at hv'
    rw [hv] at hv'
    exact le_of_eq (Option.some.inj hv')
  | cons p rest ih =>
    intro m v v' hl hInv hNn hv hv'
    obtain ⟨hInv1, hNn1, hmono⟩ := store_score_inv_step m p.1 p.2
      (hl p (List.mem_cons_self p rest)).1 (hl p (List.mem_cons_self p rest)).2
      hInv hNn
    rw [scoreFold] at hv'
    have hpres : ∃ v1,
        get_score (store_score m p.1 p.2).1 "overall_score" = some v1 ∧
          v ≤ v1 := by
      by_cases hF : p.1 = "Fin"
      · have h1 := store_score_fin_overall m p.2
        rw [← hF] at h1
        exact ⟨_, h1, hmono v _ hv h1⟩
      · have h1 : get_score (store_score m p.1 p.2).1 "overall_score" = some v := by
          rw [store_score_overall_frame m p.1 p.2 hF
            (hl p (List.mem_cons_self p rest)).1]
          exact hv
        exact ⟨v, h1, le_rfl⟩
    obtain ⟨v1, hv1, hvv1⟩ := hpres
    exact le_trans hvv1 (ih (store_score m p.1 p.2).1 v1 v'
      (fun q hq => hl q (List.mem_cons_of_mem p hq)) hInv1 hNn1 hv1 hv')

/-- Witness for C10 at a concrete reachable state: overall 7 (from a "Fin"
submission of 10) rises to 14 after a "Fin" submission of 20. -/
theorem c10_overall_monotone_witness :
    (∀ p ∈ [(("Fin" : String), (20 : Int))], p.1 ≠ "overall_score" ∧ 0 ≤ p.2) ∧
      OverallInv [("Fin", 10), ("overall_score", 7)] ∧
      NonnegScores [("Fin", 10), ("overall_score", 7)] ∧
      get_score [("Fin", 10), ("overall_score", 7)] "overall_score" = some 7 ∧
      get_score (scoreFold [("Fin", 10), ("overall_score", 7)]
        [("Fin", 20)]) "overall_score" = some 14 ∧
      (7 : Int) ≤ 14 := by
  have hInv : OverallInv [("Fin", 10), ("overall_score", 7)] := by
    intro v hv
    simp only [get_score, alist_get] at hv
    rw [if_neg (by decide : ¬("Fin" : String) = "overall_score")] at hv
    simp at hv
    subst hv
    exact ⟨10, rfl, by decide⟩
  have hNn : NonnegScores [("Fin", 10), ("overall_score", 7)] := by
    intro k v hv
    simp only [get_score, alist_get] at hv
    split_ifs at hv <;> injection hv with h <;> omega
  refine ⟨by decide, hInv, hNn, rfl, by decide, ?_⟩
  exact c10_overall_monotone [("Fin", 20)] [("Fin", 10), ("overall_score", 7)]
    7 14 (by decide) hInv hNn rfl (by decide)
